import Mathlib

/-!
# Verification of `medical_imaging/medical.py`

A shallow embedding of the single-file Streamlit application
`src/medical_imaging/medical.py` together with proofs about its behaviour.

The program is modelled as follows.

* The results of external library calls that the script cannot influence
  (PIL image decoding, the `image.resize` call, and the `medical_agent.run`
  model call) are supplied as an oracle attached to each uploaded file
  (`Upload`): decoding either yields the pixel dimensions or raises, and the
  model call either yields report text or raises with a message.
* Local storage is a list of file paths currently present on disk; writing a
  file conses its path, `os.remove` filters it out.
* Python exceptions are explicit: a function that can propagate an exception
  returns an `Except` value (or a state paired with an `Option PyErr`), and a
  raised exception aborts the rest of the script run, exactly as an uncaught
  exception aborts the Streamlit script.
* CPython evaluates `width / height` (int / int) and `500 / aspect_ratio`
  (int / float) as correctly rounded IEEE-754 binary64 divisions
  (round to nearest, ties to even).  Both quotients produced by this program
  are strictly positive and far away from binary64 overflow and underflow, so
  a positive double is modelled exactly as a mantissa/exponent pair of
  integers and division as correct rounding of the exact rational quotient.
-/

set_option maxRecDepth 4000000

namespace MedicalImaging

/-! ## Binary64 division model (for `medical.py` lines 78-81) -/

/-- `⌊log2 n⌋` for `n ≥ 1`, by structural recursion on a fuel argument so that
the kernel can evaluate it (`log2Fuel fuel n` halves `n` until it drops below
`2`; `fuel = n` always suffices). -/
def log2Fuel : Nat → Nat → Nat
  | 0, _ => 0
  | fuel + 1, n => if 2 ≤ n then log2Fuel fuel (n / 2) + 1 else 0

/-- `⌊log2 n⌋` for `n ≥ 1` (and `0` at `0`). -/
def natLog2 (n : Nat) : Nat := log2Fuel n n

/-- Decides `2 ^ e ≤ n / d` by cross-multiplication, for `n, d ≥ 1`. -/
def twoPowLeFrac (e : Int) (n d : Nat) : Bool :=
  if 0 ≤ e then decide (d * 2 ^ e.toNat ≤ n) else decide (d ≤ n * 2 ^ (-e).toNat)

/-- `⌊log2 (n / d)⌋` for `n, d ≥ 1`: the first guess
`⌊log2 n⌋ - ⌊log2 d⌋` is exact or one too large, and the cross-multiplied
comparison picks the right one. -/
def fracLog2 (n d : Nat) : Int :=
  let e0 : Int := (natLog2 n : Int) - (natLog2 d : Int)
  if twoPowLeFrac e0 n d then e0 else e0 - 1

/-- Rounds `N / D` (`D ≥ 1`) to the nearest integer, ties to even. -/
def rneFrac (N D : Nat) : Nat :=
  let q := N / D
  let r := N % D
  if 2 * r < D then q
  else if D < 2 * r then q + 1
  else if q % 2 = 0 then q else q + 1

/-- The correctly rounded binary64 value of the positive fraction `n / d`
(`n, d ≥ 1`), returned as a mantissa/exponent pair `(m, e)` whose value is
`m * 2 ^ e`: the exponent is chosen so that the scaled quotient lies in
`[2^52, 2^53)`, then the scaled quotient is rounded to the nearest integer,
ties to even.  Overflow and subnormals are outside the range this program
produces and are not modelled. -/
def floatDiv (n d : Nat) : Nat × Int :=
  let e : Int := fracLog2 n d - 52
  let m := if 0 ≤ e then rneFrac n (d * 2 ^ e.toNat) else rneFrac (n * 2 ^ (-e).toNat) d
  (m, e)

/-- The rational value of a mantissa/exponent pair. -/
def fval (p : Nat × Int) : ℚ :=
  if 0 ≤ p.2 then (p.1 : ℚ) * 2 ^ p.2.toNat else (p.1 : ℚ) / 2 ^ (-p.2).toNat

/-- Python `int()` applied to a positive float `m * 2 ^ e`: truncation, which
for positive values is the floor. -/
def floorPos (p : Nat × Int) : Nat :=
  if 0 ≤ p.2 then p.1 * 2 ^ p.2.toNat else p.1 / 2 ^ (-p.2).toNat

/-- The exact fraction `500 / (m * 2 ^ e)`, as a numerator/denominator pair of
naturals: the operands of the second division `new_width / aspect_ratio`. -/
def recip500 (p : Nat × Int) : Nat × Nat :=
  if 0 ≤ p.2 then (500, p.1 * 2 ^ p.2.toNat) else (500 * 2 ^ (-p.2).toNat, p.1)

/-- `medical.py` line 80: `new_width = 500`. -/
def new_width : Nat := 500

/-- `medical.py` lines 78-81 for an original image of size `w × h`:
`aspect_ratio = width / height` and `new_height = int(new_width / aspect_ratio)`,
both divisions performed in binary64. -/
def new_height (w h : Nat) : Nat :=
  let aspect := floatDiv w h
  let q := recip500 aspect
  floorPos (floatDiv q.1 q.2)

/-- The unit relative error bound of one correctly rounded binary64
operation on this model: `2 ^ (-53)`. -/
def eps53 : ℚ := ((2 : ℚ) ^ 53)⁻¹

/-! ## Data model -/

/-- One stored history entry (`medical.py` lines 156-159): the uploaded file's
name and the report text (markdown or error text). -/
structure Entry where
  filename : String
  report : String
deriving DecidableEq

/-- A Python exception propagating out of the script (uncaught). -/
inductive PyErr where
  /-- `PIL.UnidentifiedImageError` (or any decode failure) raised by
  `PILImage.open` at line 77. -/
  | decodeErr (filename : String)
  /-- An exception raised by `image.resize` at line 82. -/
  | resizeErr (filename : String)
  /-- `StopIteration` raised by `next(...)` at lines 206-207. -/
  | stopIteration
deriving DecidableEq

/-- One uploaded file together with the oracle for the external library calls
made while analyzing it: `decoded` is the pixel size `(w, h)` returned by
`PILImage.open`/`image.size`, or `none` if decoding raises; `resizeOk` tells
whether `image.resize` returns normally; `modelResult` is the outcome of
`medical_agent.run` (report content, or a raised exception's message). -/
structure Upload where
  name : String
  decoded : Option (Nat × Nat)
  resizeOk : Bool
  modelResult : Except String String

/-- The mutable state touched by the Analyze All loop: the set of file paths
present in local storage, and the session history
(`st.session_state.history`). -/
structure AppState where
  disk : List String
  history : List Entry
deriving DecidableEq

instance {ε α : Type} [DecidableEq ε] [DecidableEq α] : DecidableEq (Except ε α) := fun x y =>
  match x, y with
  | .ok a, .ok b => if h : a = b then .isTrue (by rw [h]) else .isFalse (by simp [h])
  | .error a, .error b => if h : a = b then .isTrue (by rw [h]) else .isFalse (by simp [h])
  | .ok _, .error _ => .isFalse (by simp)
  | .error _, .ok _ => .isFalse (by simp)

/-- `medical.py` line 84: the fixed temp path of the resized image. -/
def temp_path : String := "temp_resized_image.png"

/-- `os.remove p`: the path is no longer present in storage. -/
def removeFile (disk : List String) (p : String) : List String :=
  disk.filter (· ≠ p)

/-- `medical.py` lines 76-95, `analyze_medical_image(image_path)` for the
upload `u` currently written at `image_path`.  Returns the report string (or
the propagating exception) together with the storage contents afterwards:

* line 77 `PILImage.open` raises if the bytes do not decode — this is outside
  any `try`, so the exception propagates and storage is untouched;
* lines 78-82 compute `new_width`/`new_height` and resize (`image.resize` may
  raise, again outside any `try`);
* line 85 saves the resized image at `temp_path`;
* lines 89-95: `try` the model call, converting a raised exception `e` into
  the string `"⚠️ Analysis error: " ++ e`, and in both cases the `finally`
  removes `temp_path`. -/
def analyze_medical_image (u : Upload) (disk : List String) :
    Except PyErr String × List String :=
  match u.decoded with
  | none => (.error (.decodeErr u.name), disk)
  | some (w, h) =>
    let _resizedSize := (new_width, new_height w h)
    if u.resizeOk then
      let disk1 := temp_path :: disk
      match u.modelResult with
      | .ok content => (.ok content, removeFile disk1 temp_path)
      | .error e => (.ok ("⚠️ Analysis error: " ++ e), removeFile disk1 temp_path)
    else (.error (.resizeErr u.name), disk)

/-- The report string an analysis of `u` stores when it completes (used only
in theorem statements): the model's content on success, the warning-prefixed
error text when the model call raises. -/
def reportOf (u : Upload) : String :=
  match u.modelResult with
  | .ok content => content
  | .error e => "⚠️ Analysis error: " ++ e

/-- One iteration of the Analyze All loop (`medical.py` lines 145-161) on
upload `u`: write the upload to `"temp_" ++ u.name` (line 149), call
`analyze_medical_image` (line 153) — an exception raised there propagates,
skipping both the history append and the `os.remove` of line 161 — then
append the report to the history (line 156) and remove the upload's temp copy
(line 161).  Returns the new state and the propagating exception, if any. -/
def analyzeOne (st : AppState) (u : Upload) : AppState × Option PyErr :=
  let image_path := "temp_" ++ u.name
  let disk1 := image_path :: st.disk
  match analyze_medical_image u disk1 with
  | (.error e, disk2) => ({ st with disk := disk2 }, some e)
  | (.ok report, disk2) =>
    ({ disk := removeFile disk2 image_path
       history := st.history ++ [{ filename := u.name, report := report }] }, none)

/-- The whole Analyze All loop: uploads are processed sequentially, and the
first propagating exception aborts the rest of the run. -/
def analyzeAll (st : AppState) (uploads : List Upload) : AppState × Option PyErr :=
  match uploads with
  | [] => (st, none)
  | u :: rest =>
    match analyzeOne st u with
    | (st1, none) => analyzeAll st1 rest
    | (st1, some e) => (st1, some e)

/-! ## Startup (`medical.py` lines 20-27) -/

/-- The startup failure: `st.error(...)` followed by `st.stop()`. -/
inductive ConfigError where
  | missingKey
deriving DecidableEq

/-- Python truthiness of a string: empty strings are falsy. -/
def truthy (s : String) : Bool := s ≠ ""

/-- `medical.py` lines 20-27, applied to the value `os.getenv` reports for
`GEMINI_API_KEY`: `if not GEMINI_API_KEY` halts with a user-visible error and
`st.stop()` before any UI is built; otherwise the key is mirrored into
`os.environ["GOOGLE_API_KEY"]`.  On success the result carries the pair
`(GEMINI_API_KEY, os.environ["GOOGLE_API_KEY"])`. -/
def startup (geminiEnv : Option String) : Except ConfigError (String × String) :=
  match geminiEnv with
  | none => .error .missingKey
  | some k => if truthy k then .ok (k, k) else .error .missingKey

/-- A whole script run: startup gates everything — only when the credential
check passes does the UI run and can the Analyze All loop execute. -/
def runApp (geminiEnv : Option String) (uploads : List Upload) :
    Except ConfigError (AppState × Option PyErr) :=
  match startup geminiEnv with
  | .error e => .error e
  | .ok _ => .ok (analyzeAll { disk := [], history := [] } uploads)

/-! ## Report display, export and comparison (`medical.py` lines 166-215) -/

/-- One `st.download_button` payload. -/
structure Download where
  data : String
  file_name : String
  mime : String
deriving DecidableEq

/-- `medical.py` lines 174-179: the TXT download offered for one entry — its
`data` is `entry["report"]` itself. -/
def txtDownload (e : Entry) : Download :=
  { data := e.report, file_name := e.filename ++ "_report.txt", mime := "text/plain" }

/-- The TXT downloads offered by the results section, one per history entry
(lines 169-179). -/
def displayTxtDownloads (history : List Entry) : List Download :=
  history.map txtDownload

/-- `medical.py` line 197: the options list shown by both selectboxes. -/
def filenames (history : List Entry) : List String :=
  history.map (·.filename)

/-- A Streamlit `st.selectbox` with no explicit index returns the option at
index 0 by default (lines 201 and 203 pass only the options list). -/
def selectboxDefault (options : List String) : Option String :=
  options.head?

/-- `medical.py` lines 205-215 with selections `file1`, `file2`: when
`file1 and file2 and file1 != file2` holds under Python truthiness, the two
`next(...)` generator calls pick the first matching history entries and both
panels render; otherwise nothing is rendered.  `.ok none` is "no comparison
output"; `.ok (some (r1, r2))` renders the two entries; `next` on an empty
generator would raise `StopIteration`. -/
def compareReports (history : List Entry) (file1 file2 : String) :
    Except PyErr (Option (Entry × Entry)) :=
  if truthy file1 && truthy file2 && file1 != file2 then
    match history.find? (fun e => e.filename == file1),
        history.find? (fun e => e.filename == file2) with
    | some r1, some r2 => .ok (some (r1, r2))
    | _, _ => .error .stopIteration
  else .ok none

/-! ## Substring containment (executable, used to state the error-marker
claims) -/

/-- `startsWithChars p l`: `p` is an initial segment of `l`. -/
def startsWithChars : List Char → List Char → Bool
  | [], _ => true
  | _ :: _, [] => false
  | a :: p, b :: l => a == b && startsWithChars p l

/-- `containsChars p l`: `p` occurs contiguously somewhere in `l`. -/
def containsChars (p : List Char) : List Char → Bool
  | [] => startsWithChars p []
  | l@(_ :: t) => startsWithChars p l || containsChars p t

/-! ## Supporting lemmas -/

theorem mem_removeFile {disk : List String} {p q : String} :
    q ∈ removeFile disk p ↔ q ∈ disk ∧ q ≠ p := by
  simp [removeFile]

theorem removeFile_self_not_mem (disk : List String) (p : String) :
    p ∉ removeFile disk p := by
  simp [mem_removeFile]

/-- The state and result of one Analyze All iteration when decode and resize
succeed: no exception escapes, both temp files are removed in order, and the
report (success text or warning text) is appended to the history. -/
theorem analyzeOne_ok (st : AppState) (u : Upload) (hd : u.decoded.isSome)
    (hr : u.resizeOk = true) :
    analyzeOne st u =
      ({ disk := removeFile (removeFile (temp_path :: ("temp_" ++ u.name) :: st.disk) temp_path)
            ("temp_" ++ u.name),
         history := st.history ++ [{ filename := u.name, report := reportOf u }] }, none) := by
  obtain ⟨⟨w, h⟩, hwh⟩ := Option.isSome_iff_exists.mp hd
  cases hm : u.modelResult with
  | ok c => simp [analyzeOne, analyze_medical_image, hwh, hr, hm, reportOf]
  | error e => simp [analyzeOne, analyze_medical_image, hwh, hr, hm, reportOf]

/-- One Analyze All iteration when `PILImage.open` raises: the exception
propagates and the per-upload temp copy stays in storage. -/
theorem analyzeOne_decode_raises (st : AppState) (u : Upload) (hd : u.decoded = none) :
    analyzeOne st u =
      ({ st with disk := ("temp_" ++ u.name) :: st.disk }, some (.decodeErr u.name)) := by
  simp [analyzeOne, analyze_medical_image, hd]

/-- One Analyze All iteration when `image.resize` raises: the exception
propagates and the per-upload temp copy stays in storage. -/
theorem analyzeOne_resize_raises (st : AppState) (u : Upload) (w h : Nat)
    (hd : u.decoded = some (w, h)) (hr : u.resizeOk = false) :
    analyzeOne st u =
      ({ st with disk := ("temp_" ++ u.name) :: st.disk }, some (.resizeErr u.name)) := by
  simp [analyzeOne, analyze_medical_image, hd, hr]

/-- When every upload decodes and resizes, the Analyze All loop appends one
entry per upload, in submission order. -/
theorem analyzeAll_histories (uploads : List Upload) (st : AppState)
    (hall : ∀ v ∈ uploads, v.decoded.isSome ∧ v.resizeOk = true) :
    (analyzeAll st uploads).1.history =
      st.history ++ uploads.map fun v => { filename := v.name, report := reportOf v } := by
  induction uploads generalizing st with
  | nil => simp [analyzeAll]
  | cons v rest ih =>
    simp only [analyzeAll, analyzeOne_ok st v (hall v (by simp)).1 (hall v (by simp)).2]
    rw [ih _ (fun x hx => hall x (by simp [hx]))]
    simp

/-- `List.find?` returns an element of the list satisfying the predicate, and
it is the earliest one. -/
theorem find?_earliest {α : Type} (p : α → Bool) (l : List α) (r : α)
    (h : l.find? p = some r) :
    ∃ i, l.get? i = some r ∧ p r = true ∧
      ∀ j < i, ∀ x, l.get? j = some x → p x = false := by
  induction l with
  | nil => simp [List.find?] at h
  | cons a t ih =>
    by_cases ha : p a
    · refine ⟨0, ?_, ?_, ?_⟩
      · simp only [List.find?, ha] at h
        simpa using h
      · simp only [List.find?, ha] at h
        cases h; exact ha
      · intro j hj x hx; omega
    · have ha' : p a = false := by simpa using ha
      simp only [List.find?, ha'] at h
      obtain ⟨i, h1, h2, h3⟩ := ih h
      refine ⟨i + 1, by simpa using h1, h2, ?_⟩
      intro j hj x hx
      cases j with
      | zero => simp at hx; cases hx; exact ha'
      | succ j' => exact h3 j' (by omega) x (by simpa using hx)

/-- A filename appearing in the options list is found by the `next(...)`
generator, and the found entry carries that filename. -/
theorem find?_of_mem_filenames (history : List Entry) (f : String)
    (h : f ∈ filenames history) :
    ∃ r, history.find? (fun e => e.filename == f) = some r ∧ r.filename = f := by
  induction history with
  | nil => simp [filenames] at h
  | cons a t ih =>
    by_cases ha : a.filename = f
    · exact ⟨a, by simp [List.find?, ha], ha⟩
    · have hmem : f ∈ filenames t := by
        simp [filenames] at h ⊢
        tauto
      obtain ⟨r, h1, h2⟩ := ih hmem
      refine ⟨r, ?_, h2⟩
      have ha' : (a.filename == f) = false := by simpa using ha
      simp [List.find?, ha', h1]

theorem startsWithChars_iff (p l : List Char) :
    startsWithChars p l = true ↔ ∃ r, l = p ++ r := by
  induction p generalizing l with
  | nil => simp [startsWithChars]
  | cons a p' ih =>
    cases l with
    | nil => simp [startsWithChars]
    | cons b l' =>
      simp only [startsWithChars, Bool.and_eq_true, beq_iff_eq, ih]
      constructor
      · rintro ⟨rfl, r, rfl⟩; exact ⟨r, rfl⟩
      · rintro ⟨r, hr⟩
        simp only [List.cons_append] at hr
        cases hr
        exact ⟨rfl, r, rfl⟩

theorem containsChars_iff (p l : List Char) :
    containsChars p l = true ↔ ∃ t r, l = t ++ p ++ r := by
  induction l with
  | nil =>
    simp only [containsChars, startsWithChars_iff]
    constructor
    · rintro ⟨r, hr⟩; exact ⟨[], r, by simpa using hr⟩
    · rintro ⟨t, r, htr⟩
      have : t = [] ∧ p ++ r = [] := by
        constructor
        · cases t with
          | nil => rfl
          | cons x xs => simp at htr
        · cases t with
          | nil => simpa using htr.symm
          | cons x xs => simp at htr
      exact ⟨r, by simp [this.2.symm]⟩
  | cons b l' ih =>
    simp only [containsChars, Bool.or_eq_true, startsWithChars_iff, ih]
    constructor
    · rintro (⟨r, hr⟩ | ⟨t, r, htr⟩)
      · exact ⟨[], r, by simpa using hr⟩
      · exact ⟨b :: t, r, by simp [htr]⟩
    · rintro ⟨t, r, htr⟩
      cases t with
      | nil => exact Or.inl ⟨r, by simpa using htr⟩
      | cons x xs =>
        simp only [List.cons_append, List.cons.injEq] at htr
        exact Or.inr ⟨xs, r, by simp [htr.2]⟩

/-! ## Lemmas about the binary64 model -/

theorem log2Fuel_bounds (fuel : Nat) : ∀ n, 1 ≤ n → n ≤ fuel →
    2 ^ log2Fuel fuel n ≤ n ∧ n < 2 ^ (log2Fuel fuel n + 1) := by
  induction fuel with
  | zero => intro n h1 h2; exact absurd h2 (by omega)
  | succ f ih =>
    intro n h1 h2
    by_cases h : 2 ≤ n
    · have hrec := ih (n / 2) (by omega) (by omega)
      simp only [log2Fuel, if_pos h]
      have hp : 2 ^ (log2Fuel f (n / 2) + 1) = 2 * 2 ^ log2Fuel f (n / 2) := by ring
      have hp2 : 2 ^ (log2Fuel f (n / 2) + 1 + 1) = 2 * 2 ^ (log2Fuel f (n / 2) + 1) := by ring
      omega
    · simp only [log2Fuel, if_neg h]
      omega

theorem natLog2_bounds (n : Nat) (h : 1 ≤ n) :
    2 ^ natLog2 n ≤ n ∧ n < 2 ^ (natLog2 n + 1) :=
  log2Fuel_bounds n n h le_rfl

/-- The chosen binade is a lower bound for the quotient:
`2 ^ fracLog2 n d ≤ n / d`. -/
theorem fracLog2_le (n d : Nat) (hn : 0 < n) (hd : 0 < d) :
    (2 : ℚ) ^ (fracLog2 n d) ≤ (n : ℚ) / d := by
  have hdq : (0 : ℚ) < d := by exact_mod_cast hd
  rw [fracLog2]
  by_cases hcond : twoPowLeFrac ((natLog2 n : Int) - (natLog2 d : Int)) n d = true
  · rw [if_pos hcond]
    rw [twoPowLeFrac] at hcond
    by_cases hsgn : (0 : Int) ≤ (natLog2 n : Int) - (natLog2 d : Int)
    · rw [if_pos hsgn, decide_eq_true_eq] at hcond
      rw [le_div_iff hdq]
      have h2 : ((natLog2 n : Int) - natLog2 d) =
          ((((natLog2 n : Int) - natLog2 d).toNat : Nat) : Int) :=
        (Int.toNat_of_nonneg hsgn).symm
      rw [h2, zpow_natCast]
      have hc : ((d * 2 ^ ((natLog2 n : Int) - natLog2 d).toNat : Nat) : ℚ) ≤ (n : ℚ) := by
        exact_mod_cast hcond
      push_cast at hc
      linarith
    · rw [if_neg hsgn, decide_eq_true_eq] at hcond
      have hk : ((natLog2 n : Int) - natLog2 d) =
          -(((-((natLog2 n : Int) - natLog2 d)).toNat : Nat) : Int) := by omega
      rw [hk, zpow_neg, zpow_natCast, inv_eq_one_div,
        div_le_div_iff (by positivity) hdq]
      have hc : ((d : Nat) : ℚ) ≤
          ((n * 2 ^ (-((natLog2 n : Int) - natLog2 d)).toNat : Nat) : ℚ) := by
        exact_mod_cast hcond
      push_cast at hc
      linarith
  · rw [if_neg hcond]
    have hna := (natLog2_bounds n hn).1
    have hdb := (natLog2_bounds d hd).2
    have he : (natLog2 n : Int) - natLog2 d - 1 = (natLog2 n : Int) - ((natLog2 d : Int) + 1) := by
      ring
    rw [he, zpow_sub₀ (by norm_num : (2 : ℚ) ≠ 0)]
    rw [div_le_div_iff (by positivity) hdq]
    have h1 : (2 : ℚ) ^ ((natLog2 n : Int)) = ((2 ^ natLog2 n : Nat) : ℚ) := by
      rw [zpow_natCast]; push_cast; ring
    have h2 : (2 : ℚ) ^ ((natLog2 d : Int) + 1) = ((2 ^ (natLog2 d + 1) : Nat) : ℚ) := by
      have : ((natLog2 d : Int) + 1) = (((natLog2 d + 1 : Nat)) : Int) := by push_cast; ring
      rw [this, zpow_natCast]; push_cast; ring
    rw [h1, h2]
    have hna' : ((2 ^ natLog2 n : Nat) : ℚ) ≤ (n : ℚ) := by exact_mod_cast hna
    have hdb' : ((d : Nat) : ℚ) ≤ ((2 ^ (natLog2 d + 1) : Nat) : ℚ) := by
      exact_mod_cast Nat.le_of_lt hdb
    have hd0 : (0 : ℚ) ≤ (d : ℚ) := le_of_lt hdq
    have hn0 : (0 : ℚ) ≤ (n : ℚ) := by positivity
    nlinarith

/-- Round-to-nearest of a fraction is within half a unit. -/
theorem rneFrac_bounds (N D : Nat) (hD : 0 < D) :
    (N : ℚ) / D - 1 / 2 ≤ (rneFrac N D : ℚ) ∧ (rneFrac N D : ℚ) ≤ (N : ℚ) / D + 1 / 2 := by
  have hDq : (0 : ℚ) < D := by exact_mod_cast hD
  have hDne : (D : ℚ) ≠ 0 := ne_of_gt hDq
  have hNd : N = D * (N / D) + N % D := (Nat.div_add_mod N D).symm
  have hrlt : N % D < D := Nat.mod_lt _ hD
  have hq : (N : ℚ) = (D : ℚ) * ((N / D : Nat) : ℚ) + ((N % D : Nat) : ℚ) := by
    exact_mod_cast hNd
  have hrq : ((N % D : Nat) : ℚ) < (D : ℚ) := by exact_mod_cast hrlt
  have hr0 : (0 : ℚ) ≤ ((N % D : Nat) : ℚ) := by positivity
  have hhalf : (D : ℚ) / 2 / D = 1 / 2 := by
    rw [div_div, mul_comm, ← div_div, div_self hDne]
  have hrw1 : (N : ℚ) / D + 1 / 2 = ((N : ℚ) + (D : ℚ) / 2) / D := by
    rw [add_div, hhalf]
  have hrw2 : (N : ℚ) / D - 1 / 2 = ((N : ℚ) - (D : ℚ) / 2) / D := by
    rw [sub_div, hhalf]
  rw [rneFrac, hrw1, hrw2]
  by_cases h1 : 2 * (N % D) < D
  · have h1q : 2 * ((N % D : Nat) : ℚ) < (D : ℚ) := by exact_mod_cast h1
    rw [if_pos h1]
    constructor
    · rw [div_le_iff hDq]
      nlinarith
    · rw [le_div_iff hDq]
      nlinarith
  · rw [if_neg h1]
    have h1q : (D : ℚ) ≤ 2 * ((N % D : Nat) : ℚ) := by
      exact_mod_cast Nat.le_of_not_lt h1
    by_cases h2 : D < 2 * (N % D)
    · rw [if_pos h2]
      constructor
      · rw [div_le_iff hDq]
        push_cast
        nlinarith
      · rw [le_div_iff hDq]
        push_cast
        nlinarith
    · rw [if_neg h2]
      have h2q : 2 * ((N % D : Nat) : ℚ) ≤ (D : ℚ) := by
        exact_mod_cast Nat.le_of_not_lt h2
      by_cases h3 : N / D % 2 = 0
      · rw [if_pos h3]
        constructor
        · rw [div_le_iff hDq]
          nlinarith
        · rw [le_div_iff hDq]
          nlinarith
      · rw [if_neg h3]
        constructor
        · rw [div_le_iff hDq]
          push_cast
          nlinarith
        · rw [le_div_iff hDq]
          push_cast
          nlinarith

theorem fval_eq_zpow (p : Nat × Int) : fval p = (p.1 : ℚ) * (2 : ℚ) ^ p.2 := by
  obtain ⟨m, e⟩ := p
  by_cases he : 0 ≤ e
  · simp only [fval]
    rw [if_pos he]
    conv_rhs => rw [show e = ((e.toNat : Nat) : Int) from (Int.toNat_of_nonneg he).symm]
    rw [zpow_natCast]
  · simp only [fval]
    rw [if_neg he]
    conv_rhs => rw [show e = -(((-e).toNat : Nat) : Int) by omega]
    rw [zpow_neg, zpow_natCast, div_eq_mul_inv]

/-- One correctly rounded division has relative error at most `eps53`, and its
mantissa is a full 53-bit significand. -/
theorem floatDiv_bounds (n d : Nat) (hn : 0 < n) (hd : 0 < d) :
    ((n : ℚ) / d) * (1 - eps53) ≤ fval (floatDiv n d) ∧
    fval (floatDiv n d) ≤ ((n : ℚ) / d) * (1 + eps53) ∧
    2 ^ 52 ≤ (floatDiv n d).1 := by
  have hdq : (0 : ℚ) < d := by exact_mod_cast hd
  have hx : (0 : ℚ) < (n : ℚ) / d := by positivity
  have hL := fracLog2_le n d hn hd
  have heps : eps53 = ((2 : ℚ) ^ 53)⁻¹ := rfl
  have heps0 : (0 : ℚ) < eps53 := by rw [heps]; positivity
  by_cases he : 0 ≤ fracLog2 n d - 52
  · set k := (fracLog2 n d - 52).toNat with hk
    have hfd : floatDiv n d = (rneFrac n (d * 2 ^ k), fracLog2 n d - 52) := by
      rw [floatDiv, if_pos he]
    have h2kpos : (0 : ℚ) < (2 : ℚ) ^ k := by positivity
    have hD : 0 < d * 2 ^ k := by positivity
    have hb := rneFrac_bounds n (d * 2 ^ k) hD
    have hs : ((d * 2 ^ k : Nat) : ℚ) = (d : ℚ) * 2 ^ k := by push_cast; ring
    have hxdiv : (n : ℚ) / ((d : ℚ) * 2 ^ k) = ((n : ℚ) / d) / 2 ^ k := by
      rw [div_div]
    rw [hs, hxdiv] at hb
    have hval : fval (floatDiv n d) = ((rneFrac n (d * 2 ^ k) : Nat) : ℚ) * 2 ^ k := by
      rw [hfd, fval_eq_zpow]
      congr 1
      conv_lhs => rw [show (fracLog2 n d - 52 : Int) = ((k : Nat) : Int) from
        (Int.toNat_of_nonneg he).symm]
      rw [zpow_natCast]
    have hL52 : (2 : ℚ) ^ (k + 52 : Nat) ≤ (n : ℚ) / d := by
      have hcast : ((k + 52 : Nat) : Int) = fracLog2 n d := by omega
      rw [← zpow_natCast (2 : ℚ) (k + 52), hcast]
      exact hL
    have hpowmul : (2 : ℚ) ^ (k + 52 : Nat) * eps53 = 2 ^ k / 2 := by
      rw [heps, pow_add]
      rw [show (2 : ℚ) ^ 53 = 2 ^ 52 * 2 by ring]
      field_simp
      ring
    have hxu : (2 : ℚ) ^ k / 2 ≤ ((n : ℚ) / d) * eps53 := by
      rw [← hpowmul]
      exact mul_le_mul_of_nonneg_right hL52 (le_of_lt heps0)
    have hxx : (n : ℚ) / d / 2 ^ k * 2 ^ k = (n : ℚ) / d :=
      div_mul_cancel₀ _ (ne_of_gt h2kpos)
    refine ⟨?_, ?_, ?_⟩
    · rw [hval]
      nlinarith [mul_le_mul_of_nonneg_right hb.1 (le_of_lt h2kpos)]
    · rw [hval]
      nlinarith [mul_le_mul_of_nonneg_right hb.2 (le_of_lt h2kpos)]
    · rw [hfd]
      have h52 : (2 : ℚ) ^ (52 : Nat) ≤ (n : ℚ) / d / 2 ^ k := by
        rw [le_div_iff h2kpos]
        calc (2 : ℚ) ^ (52 : Nat) * 2 ^ k = 2 ^ (k + 52 : Nat) := by rw [pow_add]; ring
          _ ≤ (n : ℚ) / d := hL52
      by_contra hcon
      have hm1 : rneFrac n (d * 2 ^ k) ≤ 2 ^ 52 - 1 := by omega
      have hm2 : ((rneFrac n (d * 2 ^ k) : Nat) : ℚ) ≤ ((2 ^ 52 - 1 : Nat) : ℚ) := by
        exact_mod_cast hm1
      have hm3 : ((2 ^ 52 - 1 : Nat) : ℚ) = (2 : ℚ) ^ (52 : Nat) - 1 := by norm_num
      rw [hm3] at hm2
      linarith [hb.1]
  · set k := (-(fracLog2 n d - 52)).toNat with hk
    have hfd : floatDiv n d = (rneFrac (n * 2 ^ k) d, fracLog2 n d - 52) := by
      rw [floatDiv, if_neg he]
    have h2kpos : (0 : ℚ) < (2 : ℚ) ^ k := by positivity
    have hb := rneFrac_bounds (n * 2 ^ k) d hd
    have hs : ((n * 2 ^ k : Nat) : ℚ) = (n : ℚ) * 2 ^ k := by push_cast; ring
    have hxmul : (n : ℚ) * 2 ^ k / d = ((n : ℚ) / d) * 2 ^ k := by ring
    rw [hs, hxmul] at hb
    have hval : fval (floatDiv n d) = ((rneFrac (n * 2 ^ k) d : Nat) : ℚ) / 2 ^ k := by
      rw [hfd, fval_eq_zpow]
      rw [show (fracLog2 n d - 52 : Int) = -((k : Nat) : Int) by omega]
      rw [zpow_neg, zpow_natCast, div_eq_mul_inv]
    have hL52 : (2 : ℚ) ^ (52 : Nat) ≤ ((n : ℚ) / d) * 2 ^ k := by
      have hzk : (2 : ℚ) ^ (fracLog2 n d) = 2 ^ (52 : Nat) / 2 ^ k := by
        rw [show (fracLog2 n d : Int) = ((52 : Nat) : Int) - ((k : Nat) : Int) by omega]
        rw [zpow_sub₀ (by norm_num : (2 : ℚ) ≠ 0), zpow_natCast, zpow_natCast]
      rw [hzk] at hL
      rw [div_le_iff h2kpos] at hL
      nlinarith
    have h52eps : (2 : ℚ) ^ (52 : Nat) * eps53 = 1 / 2 := by
      rw [heps]
      rw [show (2 : ℚ) ^ 53 = 2 ^ (52 : Nat) * 2 by ring]
      field_simp
    have hxu : 1 / 2 ≤ ((n : ℚ) / d) * 2 ^ k * eps53 := by
      rw [← h52eps]
      exact mul_le_mul_of_nonneg_right hL52 (le_of_lt heps0)
    refine ⟨?_, ?_, ?_⟩
    · rw [hval, le_div_iff h2kpos]
      nlinarith [hb.1]
    · rw [hval, div_le_iff h2kpos]
      nlinarith [hb.2]
    · rw [hfd]
      by_contra hcon
      have hm1 : rneFrac (n * 2 ^ k) d ≤ 2 ^ 52 - 1 := by omega
      have hm2 : ((rneFrac (n * 2 ^ k) d : Nat) : ℚ) ≤ ((2 ^ 52 - 1 : Nat) : ℚ) := by
        exact_mod_cast hm1
      have hm3 : ((2 ^ 52 - 1 : Nat) : ℚ) = (2 : ℚ) ^ (52 : Nat) - 1 := by norm_num
      rw [hm3] at hm2
      linarith [hb.1, hL52]

/-- The numerator/denominator pair fed to the second division is the exact
fraction `500 / aspect_ratio`. -/
theorem recip500_val (p : Nat × Int) (hm : 0 < p.1) :
    0 < (recip500 p).1 ∧ 0 < (recip500 p).2 ∧
    (((recip500 p).1 : Nat) : ℚ) / (((recip500 p).2 : Nat) : ℚ) = 500 / fval p := by
  obtain ⟨m, e⟩ := p
  have hmq : (0 : ℚ) < (m : ℚ) := by exact_mod_cast hm
  by_cases he : 0 ≤ e
  · simp only [recip500, fval]
    rw [if_pos he, if_pos he]
    refine ⟨by norm_num, by positivity, ?_⟩
    push_cast
    rfl
  · simp only [recip500, fval]
    rw [if_neg he, if_neg he]
    refine ⟨by positivity, hm, ?_⟩
    have h2k : (0 : ℚ) < (2 : ℚ) ^ (-e).toNat := by positivity
    rw [div_div_eq_mul_div]
    push_cast
    ring

theorem floorPos_eq (p : Nat × Int) : floorPos p = ⌊fval p⌋₊ := by
  obtain ⟨m, e⟩ := p
  by_cases he : 0 ≤ e
  · simp only [floorPos, fval]
    rw [if_pos he, if_pos he]
    rw [show (m : ℚ) * 2 ^ e.toNat = ((m * 2 ^ e.toNat : Nat) : ℚ) by push_cast; ring]
    rw [Nat.floor_natCast]
  · simp only [floorPos, fval]
    rw [if_neg he, if_neg he]
    rw [show ((2 : ℚ) ^ (-e).toNat) = ((2 ^ (-e).toNat : Nat) : ℚ) by push_cast; ring]
    rw [Nat.floor_div_nat, Nat.floor_natCast]

/-! ## Claims -/

/-- C3 counterexample: a valid 1 × 93 image (extreme but decodable) resizes to
height `46499`, while `⌊500 / (1 / 93)⌋ = ⌊500 * 93 / 1⌋ = 46500` in exact
arithmetic: the two binary64 divisions land just below the integer and `int()`
truncates. -/
theorem resize_height_counterexample :
    new_height 1 93 = 46499 ∧ 500 * 93 / 1 = 46500 :=
  ⟨by decide, by decide⟩

set_option maxHeartbeats 1600000 in
/-- C3 (amended): the normalized width is exactly the fixed 500; the height is
the binary64 evaluation of `int(new_width / aspect_ratio)`, which is within
one of `⌊500 * h / w⌋` for every image with `h ≤ 2^30`, but can genuinely
differ from it by one when the two rounded divisions cross an integer
boundary. -/
theorem resize_dims (w h : Nat) (hw : 0 < w) (hh : 0 < h) (hb : h ≤ 2 ^ 30) :
    new_width = 500 ∧
    new_height w h ≤ 500 * h / w + 1 ∧ 500 * h / w ≤ new_height w h + 1 := by
  have hwq : (0 : ℚ) < w := by exact_mod_cast hw
  have hhq : (0 : ℚ) < h := by exact_mod_cast hh
  have heps : eps53 = ((2 : ℚ) ^ 53)⁻¹ := rfl
  have hu0 : (0 : ℚ) < eps53 := by rw [heps]; positivity
  have hu1 : eps53 ≤ 1 / 2 := by rw [heps]; norm_num
  obtain ⟨hA1, hA2, hAm⟩ := floatDiv_bounds w h hw hh
  have hmpos : 0 < (floatDiv w h).1 := lt_of_lt_of_le (by norm_num) hAm
  obtain ⟨hp1, hp2, hpv⟩ := recip500_val (floatDiv w h) hmpos
  obtain ⟨hB1, hB2, _⟩ :=
    floatDiv_bounds (recip500 (floatDiv w h)).1 (recip500 (floatDiv w h)).2 hp1 hp2
  rw [hpv] at hB1 hB2
  set a := fval (floatDiv w h) with ha
  set v := fval (floatDiv (recip500 (floatDiv w h)).1 (recip500 (floatDiv w h)).2) with hv
  have hnh : new_height w h = ⌊v⌋₊ := by
    rw [hv, ← floorPos_eq]
    rfl
  clear ha hv
  clear_value a v
  have hx : (0 : ℚ) < (w : ℚ) / h := by positivity
  have hapos : (0 : ℚ) < a := by nlinarith [hA1]
  set Q : ℚ := 500 * (h : ℚ) / w with hQ
  have hQpos : (0 : ℚ) < Q := by rw [hQ]; positivity
  have hQx : Q * ((w : ℚ) / h) = 500 := by
    rw [hQ]
    field_simp
  have hw1 : (1 : ℚ) ≤ (w : ℚ) := by exact_mod_cast hw
  have hhle : (h : ℚ) ≤ (2 : ℚ) ^ 30 := by exact_mod_cast hb
  have hQle : Q ≤ 500 * (h : ℚ) := by
    rw [hQ, div_le_iff hwq]
    nlinarith
  have hQ30 : Q ≤ 500 * (2 : ℚ) ^ 30 := by nlinarith
  have hQbig : Q * eps53 ≤ 1 / 4 := by
    have h1 : Q * eps53 ≤ 500 * (2 : ℚ) ^ 30 * eps53 :=
      mul_le_mul_of_nonneg_right hQ30 (le_of_lt hu0)
    have h2 : 500 * (2 : ℚ) ^ 30 * eps53 ≤ 1 / 4 := by
      rw [heps]
      norm_num
    linarith
  have htpos : (0 : ℚ) < 500 / a := div_pos (by norm_num) hapos
  have hC2 : (500 / a) * (1 - eps53) ≤ Q := by
    rw [div_mul_eq_mul_div, div_le_iff hapos]
    nlinarith [mul_le_mul_of_nonneg_left hA1 (le_of_lt hQpos)]
  have hC1 : Q ≤ (500 / a) * (1 + eps53) := by
    rw [div_mul_eq_mul_div, le_div_iff hapos]
    nlinarith [mul_le_mul_of_nonneg_left hA2 (le_of_lt hQpos)]
  have htu : (500 / a) * eps53 ≤ 1 / 2 := by
    nlinarith [mul_le_mul_of_nonneg_right hC2 (le_of_lt hu0),
      mul_le_mul_of_nonneg_left hu1 (le_of_lt (mul_pos htpos hu0)),
      mul_pos htpos hu0]
  have hvQ1 : v ≤ Q + 1 := by nlinarith [hB2, hC2, htu]
  have hvQ2 : Q ≤ v + 1 := by nlinarith [hB1, hC1, htu]
  have hvpos : (0 : ℚ) ≤ v := by nlinarith [hB1, htpos, hu1, hu0]
  have hex : 500 * h / w = ⌊Q⌋₊ := by
    have hQc : Q = ((500 * h : Nat) : ℚ) / ((w : Nat) : ℚ) := by
      rw [hQ]
      push_cast
      ring
    rw [hQc, Nat.floor_div_nat, Nat.floor_natCast]
  refine ⟨rfl, ?_, ?_⟩
  · rw [hnh, hex]
    calc ⌊v⌋₊ ≤ ⌊Q + 1⌋₊ := Nat.floor_le_floor hvQ1
      _ = ⌊Q⌋₊ + 1 := Nat.floor_add_one (le_of_lt hQpos)
  · rw [hnh, hex]
    calc ⌊Q⌋₊ ≤ ⌊v + 1⌋₊ := Nat.floor_le_floor hvQ2
      _ = ⌊v⌋₊ + 1 := Nat.floor_add_one hvpos

/-- C3 witness: a 4 × 3 image resizes to 500 × 375, within one of the exact
`⌊500 * 3 / 4⌋ = 375`. -/
theorem resize_dims_witness :
    new_width = 500 ∧
    new_height 4 3 ≤ 500 * 3 / 4 + 1 ∧ 500 * 3 / 4 ≤ new_height 4 3 + 1 :=
  resize_dims 4 3 (by decide) (by decide) (by decide)

/-- C4: the session history is append-only and order-preserving — every
Analyze All iteration only ever appends to the history (even when it raises),
and after `N` completed analyses the history holds exactly the `N`
corresponding entries in submission order, with no uniqueness constraint on
filenames (two entries with the same filename can coexist as entries of the
resulting list). -/
theorem history_append_only (st : AppState) (u : Upload) (uploads : List Upload) :
    (∃ t, (analyzeOne st u).1.history = st.history ++ t) ∧
    ((∀ v ∈ uploads, v.decoded.isSome ∧ v.resizeOk = true) →
      (analyzeAll st uploads).1.history =
        st.history ++ uploads.map fun v => { filename := v.name, report := reportOf v }) := by
  constructor
  · by_cases hd : u.decoded.isSome
    · by_cases hr : u.resizeOk = true
      · exact ⟨_, by rw [analyzeOne_ok st u hd hr]⟩
      · obtain ⟨⟨w, h⟩, hwh⟩ := Option.isSome_iff_exists.mp hd
        refine ⟨[], ?_⟩
        rw [analyzeOne_resize_raises st u w h hwh (by simpa using hr)]
        simp
    · refine ⟨[], ?_⟩
      rw [analyzeOne_decode_raises st u (Option.not_isSome_iff_eq_none.mp hd)]
      simp
  · exact fun hall => analyzeAll_histories uploads st hall

/-- C4 witness: starting from an empty session, two completed analyses of
files that share the filename `"a.png"` leave a history of exactly those two
entries, in order. -/
theorem history_append_only_witness :
    (analyzeAll { disk := [], history := [] }
      [{ name := "a.png", decoded := some (4, 3), resizeOk := true, modelResult := .ok "r1" },
       { name := "a.png", decoded := some (8, 5), resizeOk := true,
         modelResult := .error "down" }]).1.history =
      [{ filename := "a.png", report := "r1" },
       { filename := "a.png", report := "⚠️ Analysis error: down" }] := by
  have h := (history_append_only { disk := [], history := [] }
    { name := "a.png", decoded := some (4, 3), resizeOk := true, modelResult := .ok "r1" }
    [{ name := "a.png", decoded := some (4, 3), resizeOk := true, modelResult := .ok "r1" },
     { name := "a.png", decoded := some (8, 5), resizeOk := true,
       modelResult := .error "down" }]).2 (by decide)
  simpa [reportOf] using h

/-- C9: for every stored report, the TXT download artifact's payload is the
stored report string itself — the export section offers one TXT download per
history entry whose `data` is byte-identical to the stored string. -/
theorem txt_export_identity (history : List Entry) :
    (displayTxtDownloads history).map (fun d => d.data) = history.map fun e => e.report := by
  simp [displayTxtDownloads, txtDownload, List.map_map]

/-- C10: in the comparison view each selected filename is resolved by
`next(...)` to the earliest history entry bearing that filename — whenever the
comparison renders a pair, each rendered entry occurs in the history at an
index before which no entry carries the selected filename, so later duplicate
entries are never the ones displayed. -/
theorem compare_resolves_earliest (history : List Entry) (f1 f2 : String) (r1 r2 : Entry)
    (h : compareReports history f1 f2 = .ok (some (r1, r2))) :
    (∃ i, history.get? i = some r1 ∧ r1.filename = f1 ∧
      ∀ j < i, ∀ x, history.get? j = some x → x.filename ≠ f1) ∧
    (∃ i, history.get? i = some r2 ∧ r2.filename = f2 ∧
      ∀ j < i, ∀ x, history.get? j = some x → x.filename ≠ f2) := by
  by_cases hc : (truthy f1 && truthy f2 && f1 != f2) = true
  · rw [compareReports, if_pos hc] at h
    cases hf1 : history.find? (fun e => e.filename == f1) with
    | none =>
      rw [hf1] at h
      cases hf2 : history.find? (fun e => e.filename == f2) <;> rw [hf2] at h <;> simp at h
    | some s1 =>
      cases hf2 : history.find? (fun e => e.filename == f2) with
      | none => rw [hf1, hf2] at h; simp at h
      | some s2 =>
        rw [hf1, hf2] at h
        have hs : s1 = r1 ∧ s2 = r2 := by simpa using h
        obtain ⟨rfl, rfl⟩ := hs
        obtain ⟨i1, hi1, hp1, hm1⟩ := find?_earliest _ _ _ hf1
        obtain ⟨i2, hi2, hp2, hm2⟩ := find?_earliest _ _ _ hf2
        exact ⟨⟨i1, hi1, by simpa using hp1,
            fun j hj x hx => by simpa using hm1 j hj x hx⟩,
          ⟨i2, hi2, by simpa using hp2,
            fun j hj x hx => by simpa using hm2 j hj x hx⟩⟩
  · rw [compareReports, if_neg hc] at h
    simp at h

/-- C10 witness: with `"a.png"` stored twice, comparing `"a.png"` with
`"b.png"` renders the first `"a.png"` entry. -/
theorem compare_resolves_earliest_witness :
    (∃ i, ([{ filename := "a.png", report := "first" },
        { filename := "b.png", report := "mid" },
        { filename := "a.png", report := "dup" }] : List Entry).get? i =
          some { filename := "a.png", report := "first" } ∧
      Entry.filename { filename := "a.png", report := "first" } = "a.png" ∧
      ∀ j < i, ∀ x, ([{ filename := "a.png", report := "first" },
        { filename := "b.png", report := "mid" },
        { filename := "a.png", report := "dup" }] : List Entry).get? j = some x →
          x.filename ≠ "a.png") ∧
    (∃ i, ([{ filename := "a.png", report := "first" },
        { filename := "b.png", report := "mid" },
        { filename := "a.png", report := "dup" }] : List Entry).get? i =
          some { filename := "b.png", report := "mid" } ∧
      Entry.filename { filename := "b.png", report := "mid" } = "b.png" ∧
      ∀ j < i, ∀ x, ([{ filename := "a.png", report := "first" },
        { filename := "b.png", report := "mid" },
        { filename := "a.png", report := "dup" }] : List Entry).get? j = some x →
          x.filename ≠ "b.png") :=
  compare_resolves_earliest _ "a.png" "b.png" _ _ (by decide)

/-- C6 counterexample: an entry whose filename is the empty string defeats the
Python truthiness test `if file1 and file2 and file1 != file2`: the two
selections are distinct, both are offered in the menus, yet no comparison
output is produced. -/
theorem compare_distinct_empty_counterexample :
    ("" : String) ≠ "b" ∧
    "" ∈ filenames [{ filename := "", report := "ra" }, { filename := "b", report := "rb" }] ∧
    compareReports [{ filename := "", report := "ra" }, { filename := "b", report := "rb" }]
      "" "b" = .ok none := by
  refine ⟨by decide, by simp [filenames], rfl⟩

/-- C6 (amended): when the two selected filenames are distinct and both
non-empty (Python truthiness), both selected reports render side by side, the
rendered entries bearing exactly the selected filenames; when the two
selections are identical, no comparison output is produced and no error is
raised. -/
theorem compare_view_output (history : List Entry) (f1 f2 : String) :
    (f1 ≠ "" → f2 ≠ "" → f1 ≠ f2 → f1 ∈ filenames history → f2 ∈ filenames history →
      ∃ r1 r2, compareReports history f1 f2 = .ok (some (r1, r2)) ∧
        r1.filename = f1 ∧ r2.filename = f2) ∧
    (f1 = f2 → compareReports history f1 f2 = .ok none) := by
  constructor
  · intro h1 h2 hne hm1 hm2
    obtain ⟨r1, hf1, hr1⟩ := find?_of_mem_filenames history f1 hm1
    obtain ⟨r2, hf2, hr2⟩ := find?_of_mem_filenames history f2 hm2
    refine ⟨r1, r2, ?_, hr1, hr2⟩
    have hc : (truthy f1 && truthy f2 && f1 != f2) = true := by
      simp [truthy, h1, h2, hne]
    rw [compareReports, if_pos hc, hf1, hf2]
  · intro heq
    subst heq
    simp [compareReports]

/-- C6 witness: two distinct non-empty selections render a pair; two identical
selections render nothing. -/
theorem compare_view_output_witness :
    (∃ r1 r2,
      compareReports [{ filename := "a", report := "ra" }, { filename := "b", report := "rb" }]
        "a" "b" = .ok (some (r1, r2)) ∧ r1.filename = "a" ∧ r2.filename = "b") ∧
    compareReports [{ filename := "a", report := "ra" }, { filename := "b", report := "rb" }]
      "b" "b" = .ok none :=
  ⟨(compare_view_output [{ filename := "a", report := "ra" },
      { filename := "b", report := "rb" }] "a" "b").1
      (by decide) (by decide) (by decide) (by simp [filenames]) (by simp [filenames]),
    (compare_view_output [{ filename := "a", report := "ra" },
      { filename := "b", report := "rb" }] "b" "b").2 rfl⟩

/-- C7 counterexample: with history `["a", "b"]` both selectboxes default to
the option at index 0, namely `"a"` — the second menu's default is not the
second distinct filename `"b"`, so the menus do not default to the first two
distinct entries. -/
theorem selectbox_default_counterexample :
    selectboxDefault (filenames [{ filename := "a", report := "r1" },
      { filename := "b", report := "r2" }]) = some "a" ∧
    selectboxDefault (filenames [{ filename := "a", report := "r1" },
      { filename := "b", report := "r2" }]) ≠ some "b" :=
  ⟨rfl, by decide⟩

/-- C7 (amended): both filename menus default to the option at index 0 — the
first history entry's filename — so the two defaults coincide and the default
state of the comparison view produces no comparison output. -/
theorem selectbox_defaults (e : Entry) (rest : List Entry) :
    selectboxDefault (filenames (e :: rest)) = some e.filename ∧
    compareReports (e :: rest) e.filename e.filename = .ok none := by
  constructor
  · simp [selectboxDefault, filenames]
  · simp [compareReports]

/-- C8 counterexample: a credential that is present in the environment but
empty (`GEMINI_API_KEY=`) halts startup instead of being mirrored into
`GOOGLE_API_KEY`, because `if not GEMINI_API_KEY` uses Python truthiness. -/
theorem startup_empty_key_counterexample :
    (some "").isSome = true ∧ startup (some "") = .error .missingKey ∧
    runApp (some "") [] = .error .missingKey :=
  ⟨rfl, rfl, rfl⟩

/-- C8 (amended): if the credential is absent — or present but empty, which
Python truthiness treats the same — the run halts with a configuration error
before any UI is served and no analysis can run; if it is present and
non-empty it is mirrored under `GOOGLE_API_KEY` and the app proceeds. -/
theorem startup_credential_gate (uploads : List Upload) (k : String) :
    runApp none uploads = .error .missingKey ∧
    runApp (some "") uploads = .error .missingKey ∧
    (k ≠ "" → startup (some k) = .ok (k, k) ∧
      runApp (some k) uploads = .ok (analyzeAll { disk := [], history := [] } uploads)) := by
  refine ⟨rfl, rfl, fun hk => ?_⟩
  have ht : truthy k = true := by simp [truthy, hk]
  constructor
  · simp [startup, ht]
  · simp [runApp, startup, ht]

/-- C8 witness: with credential `"key"` set, startup mirrors it and the app
runs; with it absent or empty, the run halts with the configuration error. -/
theorem startup_credential_gate_witness :
    runApp none [] = .error .missingKey ∧
    runApp (some "") [] = .error .missingKey ∧
    (startup (some "key") = .ok ("key", "key") ∧
      runApp (some "key") [] = .ok (analyzeAll { disk := [], history := [] } [])) :=
  ⟨(startup_credential_gate [] "key").1, (startup_credential_gate [] "key").2.1,
    (startup_credential_gate [] "key").2.2 (by decide)⟩

/-- C5 counterexample: the error string produced when the model call raises is
`"⚠️ Analysis error: <details>"` with a capital `A` — it does not contain the
literal substring `"analysis error"`. -/
theorem analysis_error_lowercase_counterexample :
    (analyze_medical_image
      { name := "x.png", decoded := some (4, 3), resizeOk := true,
        modelResult := .error "boom" } []).1 = .ok "⚠️ Analysis error: boom" ∧
    ¬ ∃ t r, ("⚠️ Analysis error: boom").data = t ++ ("analysis error").data ++ r := by
  constructor
  · rfl
  · rw [← containsChars_iff]
    decide

/-- C5 (amended): for every failure raised by the external model call, the
string returned by `analyze_medical_image` is exactly
`"⚠️ Analysis error: " ++ details`, and it contains the literal substring
`"Analysis error"` (capital `A`). -/
theorem analysis_error_marker (u : Upload) (e : String) (disk : List String)
    (hd : u.decoded.isSome) (hr : u.resizeOk = true) (hm : u.modelResult = .error e) :
    (analyze_medical_image u disk).1 = .ok ("⚠️ Analysis error: " ++ e) ∧
    ∃ t r, ("⚠️ Analysis error: " ++ e).data = t ++ ("Analysis error").data ++ r := by
  constructor
  · obtain ⟨⟨w, h⟩, hwh⟩ := Option.isSome_iff_exists.mp hd
    simp [analyze_medical_image, hwh, hr, hm]
  · refine ⟨("⚠️ ").data, (": ").data ++ e.data, ?_⟩
    have hsplit : ("⚠️ Analysis error: ").data =
        ("⚠️ ").data ++ ("Analysis error").data ++ (": ").data := by decide
    rw [String.data_append, hsplit]
    simp [List.append_assoc]

/-- C5 witness: a concrete model failure `"boom"` produces the warning string
with the `"Analysis error"` marker. -/
theorem analysis_error_marker_witness :
    (analyze_medical_image
      { name := "x.png", decoded := some (4, 3), resizeOk := true,
        modelResult := .error "boom" } []).1 = .ok ("⚠️ Analysis error: " ++ "boom") ∧
    ∃ t r, ("⚠️ Analysis error: " ++ "boom").data = t ++ ("Analysis error").data ++ r :=
  analysis_error_marker
    { name := "x.png", decoded := some (4, 3), resizeOk := true, modelResult := .error "boom" }
    "boom" [] (by decide) rfl rfl

/-- C2 counterexample: corrupt bytes that fail to decode are not recovered
into a warning-marker report — `PILImage.open` raises outside the `try`, the
exception propagates out of the analysis, and nothing is stored in the
history. -/
theorem decode_failure_propagates_counterexample :
    analyzeOne { disk := [], history := [] }
      { name := "bad.png", decoded := none, resizeOk := true, modelResult := .ok "r" } =
    ({ disk := ["temp_bad.png"], history := [] }, some (.decodeErr "bad.png")) := rfl

/-- C2 (amended): only failures of the external model call itself are
recovered locally: when decode and resize succeed and the model call raises
`e`, no exception escapes, the warning-marker report is appended to the
history exactly like a successful report, and its TXT export is the stored
string itself; decode and resize failures instead propagate as exceptions. -/
theorem model_failure_recovered (st : AppState) (u : Upload) (e : String)
    (hd : u.decoded.isSome) (hr : u.resizeOk = true) (hm : u.modelResult = .error e) :
    (analyzeOne st u).2 = none ∧
    (analyzeOne st u).1.history =
      st.history ++ [{ filename := u.name, report := "⚠️ Analysis error: " ++ e }] ∧
    txtDownload { filename := u.name, report := "⚠️ Analysis error: " ++ e } =
      { data := "⚠️ Analysis error: " ++ e, file_name := u.name ++ "_report.txt",
        mime := "text/plain" } := by
  have hrep : reportOf u = "⚠️ Analysis error: " ++ e := by simp [reportOf, hm]
  rw [analyzeOne_ok st u hd hr]
  simp [hrep, txtDownload]

/-- C2 witness: a concrete model failure is stored as a report entry with the
warning marker and no exception. -/
theorem model_failure_recovered_witness :
    (analyzeOne { disk := [], history := [] }
      { name := "x.png", decoded := some (4, 3), resizeOk := true,
        modelResult := .error "down" }).2 = none ∧
    (analyzeOne { disk := [], history := [] }
      { name := "x.png", decoded := some (4, 3), resizeOk := true,
        modelResult := .error "down" }).1.history =
      [] ++ [{ filename := "x.png", report := "⚠️ Analysis error: " ++ "down" }] ∧
    txtDownload { filename := "x.png", report := "⚠️ Analysis error: " ++ "down" } =
      { data := "⚠️ Analysis error: " ++ "down", file_name := "x.png" ++ "_report.txt",
        mime := "text/plain" } :=
  model_failure_recovered { disk := [], history := [] }
    { name := "x.png", decoded := some (4, 3), resizeOk := true, modelResult := .error "down" }
    "down" (by decide) rfl rfl

/-- C1 counterexample: when decoding raises, the per-upload temp copy
`"temp_bad.png"` written before the call is still present in storage after
the iteration, and the exception propagates — not every exit path removes the
temp files. -/
theorem temp_file_left_counterexample :
    "temp_bad.png" ∈
      (analyzeOne { disk := [], history := [] }
        { name := "bad.png", decoded := none, resizeOk := true,
          modelResult := .ok "r" }).1.disk ∧
    (analyzeOne { disk := [], history := [] }
      { name := "bad.png", decoded := none, resizeOk := true, modelResult := .ok "r" }).2 ≠
      none := by
  refine ⟨?_, ?_⟩ <;> decide

/-- C1 (amended): when decode and resize succeed, both temp files — the
per-upload copy and the resized image — are absent from storage after the
iteration, whether the model call succeeded or raised; but when decode raises
the exception propagates and the per-upload temp copy remains in storage. -/
theorem temp_files_cleanup (st : AppState) (u : Upload) :
    (u.decoded.isSome → u.resizeOk = true →
      (analyzeOne st u).2 = none ∧
      temp_path ∉ (analyzeOne st u).1.disk ∧
      ("temp_" ++ u.name) ∉ (analyzeOne st u).1.disk) ∧
    (u.decoded = none →
      (analyzeOne st u).1.disk = ("temp_" ++ u.name) :: st.disk ∧
      ("temp_" ++ u.name) ∈ (analyzeOne st u).1.disk) := by
  constructor
  · intro hd hr
    rw [analyzeOne_ok st u hd hr]
    refine ⟨rfl, ?_, ?_⟩
    · simp [mem_removeFile]
    · simp [mem_removeFile]
  · intro hd
    rw [analyzeOne_decode_raises st u hd]
    simp

/-- C1 witness: a concrete iteration whose model call raises still leaves
storage free of both temp files. -/
theorem temp_files_cleanup_witness :
    (analyzeOne { disk := ["other.txt"], history := [] }
      { name := "x.png", decoded := some (4, 3), resizeOk := true,
        modelResult := .error "down" }).2 = none ∧
    temp_path ∉ (analyzeOne { disk := ["other.txt"], history := [] }
      { name := "x.png", decoded := some (4, 3), resizeOk := true,
        modelResult := .error "down" }).1.disk ∧
    ("temp_" ++ "x.png") ∉ (analyzeOne { disk := ["other.txt"], history := [] }
      { name := "x.png", decoded := some (4, 3), resizeOk := true,
        modelResult := .error "down" }).1.disk :=
  (temp_files_cleanup { disk := ["other.txt"], history := [] }
    { name := "x.png", decoded := some (4, 3), resizeOk := true,
      modelResult := .error "down" }).1 (by decide) rfl

end MedicalImaging
